import Mathlib

set_option autoImplicit false

/-!
Shallow embedding of the core of the Agentic-AI repository:
the multi-backend MCP orchestrator (src/mcp_orchestrator_pro.py),
the agent loop (src/calendar_assistant_service.py, src/calendarassistantpro.py),
and the Discord session manager (src/discord_session_manager.py).

Python strings are modelled as lists of characters (`Str`), timestamps as
natural-number seconds, `datetime.now()` as an explicit `now` argument, and
fallible `await` calls as `Except` values.
-/

/-- Python strings, modelled as lists of characters so that splitting on the
first occurrence of the two-character delimiter can be reasoned about. -/
abbrev Str := List Char

/-- Parsed JSON argument object (the result of `json.loads` on a tool-call
argument payload), modelled abstractly as key-value pairs. -/
abbrev Args := List (Str × Str)

/-- Lookup in an insertion-ordered Python dict modelled as an association list:
returns the value of the first entry with the given key. -/
def dictGet {α : Type} (l : List (Str × α)) (k : Str) : Option α :=
  (l.find? (fun p => decide (p.1 = k))).map (fun p => p.2)

/-- Raw tool object returned by a fastmcp client `list_tools()` call.
`inputSchema` is an opaque pass-through in the source and carries no logic,
so it is omitted from the embedding. -/
structure Tool where
  name : Str
  description : Str
  title : Str
  deriving DecidableEq

/-- Normalized catalog entry produced by `get_all_tool_specs`
(src/mcp_orchestrator_pro.py lines 140-222); the `inputSchema` pass-through
field is omitted. -/
structure ToolSpec where
  server : Str
  name : Str
  bare_name : Str
  description : Str
  deriving DecidableEq

/-- Errors raised by the orchestrator execution path: the `ValueError` for a
name without the delimiter (line 266), the `ValueError` for an unknown server
(line 258), the `ValueError` for an unknown Gmail tool (line 251), and an
arbitrary exception escaping a backend call. -/
inductive OrchError where
  | invalidToolName
  | unknownServer (server : Str)
  | unknownGmailTool (toolName : Str)
  | backendFailure (msg : Str)
  deriving DecidableEq

/-- One connected fastmcp backend client: the outcome its `list_tools()`
query would produce right now, and its `call_tool` behaviour. -/
structure Backend where
  listResult : Except Str (List Tool)
  call : Str → Args → Except Str Str

/-- The hand-rolled Gmail HTTP client (`GmailMCPClient`): outcomes of its
`send_gmail`, `search_gmail` and `read_gmail` coroutines. -/
structure GmailClient where
  send : Args → Except Str Str
  search : Args → Except Str Str
  read : Args → Except Str Str

/-- State of `MCPOrchestratorPro` after `__aenter__`: the `_clients` dict
holds a `calendar` entry and/or a `notion` entry (each only if its connection
succeeded, lines 77-93), and `_gmail_http_client` is set iff the Gmail
connection succeeded (lines 95-107). -/
structure Orch where
  calendar : Option Backend
  notion : Option Backend
  gmail : Option GmailClient

def calendarId : Str := "calendar".data

def notionId : Str := "notion".data

def gmailId : Str := "gmail".data

def sendEmailName : Str := "send_email".data

def searchEmailsName : Str := "search_emails".data

def readEmailName : Str := "read_email".data

/-- The `self._clients` dict in `__aenter__` insertion order:
calendar first, then notion. -/
def clientList (o : Orch) : List (Str × Backend) :=
  (match o.calendar with
   | some b => [(calendarId, b)]
   | none => []) ++
  (match o.notion with
   | some b => [(notionId, b)]
   | none => [])

/-- Python `fullname.split("__", 1)` guarded by `"__" in fullname`
(src/mcp_orchestrator_pro.py lines 265-267): `none` exactly when the
two-character delimiter does not occur, otherwise the parts around its first
occurrence. -/
def splitOnDelim : Str → Option (Str × Str)
  | [] => none
  | c :: rest =>
    if c = '_' ∧ rest.head? = some '_' then some ([], rest.tail)
    else (splitOnDelim rest).map (fun p => (c :: p.1, p.2))

def lowerStr (s : Str) : Str := s.map Char.toLower

def gmailAuthRequiredMsg : Str :=
  "Gmail authentication required. Please run OAuth authentication first.".data

/-- The Gmail branch of `MCPOrchestratorPro.call_tool`
(src/mcp_orchestrator_pro.py lines 228-251), including the special handling
that turns a timeout/cancellation failure of `search_emails` into an
authentication-required text. -/
def gmail_dispatch (g : GmailClient) (tool_name : Str) (args : Args) :
    Except OrchError Str :=
  if tool_name = sendEmailName then
    (g.send args).mapError OrchError.backendFailure
  else if tool_name = searchEmailsName then
    match g.search args with
    | Except.ok r => Except.ok r
    | Except.error e =>
      if "timeout".data <:+: lowerStr e ∨ "cancelled".data <:+: lowerStr e then
        Except.ok gmailAuthRequiredMsg
      else Except.error (OrchError.backendFailure e)
  else if tool_name = readEmailName then
    (g.read args).mapError OrchError.backendFailure
  else
    Except.error (OrchError.unknownGmailTool tool_name)

/-- The `elif server in self._clients ... else raise ValueError` part of
`call_tool` (lines 252-258). -/
def fastmcpDispatch (o : Orch) (server tool_name : Str) (args : Args) :
    Except OrchError Str :=
  match dictGet (clientList o) server with
  | some b => (b.call tool_name args).mapError OrchError.backendFailure
  | none => Except.error (OrchError.unknownServer server)

/-- `MCPOrchestratorPro.call_tool` (src/mcp_orchestrator_pro.py lines
226-258): the Gmail branch applies only when the server is `gmail` and the
Gmail client is connected. -/
def call_tool (o : Orch) (server tool_name : Str) (args : Args) :
    Except OrchError Str :=
  match o.gmail with
  | some g =>
    if server = gmailId then gmail_dispatch g tool_name args
    else fastmcpDispatch o server tool_name args
  | none => fastmcpDispatch o server tool_name args

/-- `MCPOrchestratorPro.call_tool_by_fullname` (lines 260-269): reject a name
without the delimiter, otherwise split at the first delimiter occurrence and
forward, returning the pair `(server, result)`. -/
def call_tool_by_fullname (o : Orch) (fullname : Str) (args : Args) :
    Except OrchError (Str × Str) :=
  match splitOnDelim fullname with
  | none => Except.error OrchError.invalidToolName
  | some (server, bare) =>
    (call_tool o server bare args).map (fun r => (server, r))

/-- Construction of one catalog entry inside the `get_all_tool_specs` loop
(lines 156-167), including the Python `description or title` fallback. -/
def specOf (server : Str) (namespaced : Bool) (t : Tool) : ToolSpec :=
  { server := server
    name := if namespaced then server ++ '_' :: '_' :: t.name else t.name
    bare_name := t.name
    description := if t.description = [] then t.title else t.description }

/-- The `for server, c in self._clients.items()` loop of `get_all_tool_specs`
(lines 153-167): each backend's `list_tools()` is awaited with no surrounding
try/except, so a query failure propagates out of the whole call. -/
def collectSpecs (namespaced : Bool) :
    List (Str × Backend) → Except Str (List ToolSpec)
  | [] => Except.ok []
  | (s, b) :: rest =>
    match b.listResult with
    | Except.error e => Except.error e
    | Except.ok tools =>
      match collectSpecs namespaced rest with
      | Except.error e => Except.error e
      | Except.ok tailSpecs => Except.ok (tools.map (specOf s namespaced) ++ tailSpecs)

/-- The static Gmail tool entries appended by `get_all_tool_specs`
(lines 169-220) when the Gmail client is connected. -/
def gmailToolTable : List (Str × Str) :=
  [ (sendEmailName, "Send an email via Gmail".data),
    (searchEmailsName, "Search Gmail messages using Gmail search syntax".data),
    (readEmailName, "Read the content of a specific Gmail message".data) ]

def gmailSpecs (namespaced : Bool) : List ToolSpec :=
  gmailToolTable.map (fun p =>
    { server := gmailId
      name := if namespaced then gmailId ++ '_' :: '_' :: p.1 else p.1
      bare_name := p.1
      description := p.2 })

/-- `MCPOrchestratorPro.get_all_tool_specs` (src/mcp_orchestrator_pro.py
lines 140-222). -/
def get_all_tool_specs (o : Orch) (namespaced : Bool) :
    Except Str (List ToolSpec) :=
  match collectSpecs namespaced (clientList o) with
  | Except.error e => Except.error e
  | Except.ok specs =>
    Except.ok (specs ++ (if o.gmail.isSome then gmailSpecs namespaced else []))

/-- Outcome of `json.loads(tc.function.arguments or "{}")`
(src/calendarassistantpro.py line 146). The payload is either absent or the
empty string (the Python `or` then parses the literal empty object), a
well-formed JSON document with the given parsed value, or malformed text on
which `json.loads` raises. -/
inductive ArgPayload where
  | absent
  | wellFormed (value : Args)
  | malformed (msg : Str)
  deriving DecidableEq

/-- The `json.loads(tc.function.arguments or "{}")` expression itself:
absent and empty payloads parse to the empty object, malformed payloads
raise. -/
def loads : ArgPayload → Except Str Args
  | ArgPayload.absent => Except.ok []
  | ArgPayload.wellFormed a => Except.ok a
  | ArgPayload.malformed m => Except.error m

/-- One proposed tool call from a provider response. -/
structure ToolCall where
  id : Nat
  name : Str
  arguments : ArgPayload
  deriving DecidableEq

/-- Roles of conversation messages. -/
inductive Role where
  | system
  | user
  | assistant
  | tool
  deriving DecidableEq

/-- One conversation-history entry: `toolCallIds` are the ids of the
tool-call descriptors attached to an assistant message, `tool_call_id` is the
id a tool-result message answers, `name` is the tool name recorded on a
tool-result message. -/
structure Message where
  role : Role
  content : Str
  toolCallIds : List Nat
  tool_call_id : Option Nat
  name : Option Str
  deriving DecidableEq

/-- A completion-provider response: final text and/or proposed tool calls. -/
structure ProviderResponse where
  content : Option Str
  toolCalls : List ToolCall

/-- The textual rendering `str(e)` of an orchestrator exception. -/
def errText : OrchError → Str
  | OrchError.invalidToolName =>
    "Expected namespaced tool name like calendar__list-events".data
  | OrchError.unknownServer s => "Unknown server: ".data ++ s
  | OrchError.unknownGmailTool t => "Unknown Gmail tool: ".data ++ t
  | OrchError.backendFailure m => m

/-- `CalendarAssistantPro._call_tool_safely` (src/calendarassistantpro.py
lines 123-139): a failing dispatch becomes a textual tool-result message
with an Error content instead of raising. -/
def call_tool_safely (o : Orch) (tool_name : Str) (args : Args)
    (tool_call_id : Nat) : Message :=
  match call_tool_by_fullname o tool_name args with
  | Except.ok pr =>
    { role := Role.tool, content := pr.2, toolCallIds := [],
      tool_call_id := some tool_call_id, name := some tool_name }
  | Except.error e =>
    { role := Role.tool, content := "Error: ".data ++ errText e,
      toolCallIds := [], tool_call_id := some tool_call_id,
      name := some tool_name }

/-- `CalendarAssistantPro._execute_tool_calls` (src/calendarassistantpro.py
lines 141-150): argument payloads are parsed with `json.loads` with no
surrounding try/except during task creation, so a malformed payload raises
and fails the whole batch; each created dispatch itself is safe. -/
def execute_tool_calls (o : Orch) : List ToolCall → Except Str (List Message)
  | [] => Except.ok []
  | tc :: rest =>
    match loads tc.arguments with
    | Except.error e => Except.error e
    | Except.ok args =>
      match execute_tool_calls o rest with
      | Except.error e => Except.error e
      | Except.ok tailMsgs =>
        Except.ok (call_tool_safely o tc.name args tc.id :: tailMsgs)

/-- Python `history[-10:]` generalized: the last `n` elements (the whole
list when it is shorter than `n`). -/
def lastN {α : Type} (n : Nat) (l : List α) : List α := l.drop (l.length - n)

/-- Environment of one turn of the agent loop: the completion provider
(abstract, a function of the messages and the tool schemas it is sent), the
orchestrator, the system prompt and the iteration cap
(`self.max_iterations = 10` in src/calendarassistantpro.py line 27). -/
structure AgentEnv where
  systemPrompt : Str
  maxIterations : Nat
  provider : List Message → List ToolSpec → ProviderResponse
  orch : Orch

def systemMessage (env : AgentEnv) : Message :=
  { role := Role.system, content := env.systemPrompt, toolCallIds := [],
    tool_call_id := none, name := none }

def userMessage (content : Str) : Message :=
  { role := Role.user, content := content, toolCallIds := [],
    tool_call_id := none, name := none }

def assistantText (content : Str) : Message :=
  { role := Role.assistant, content := content, toolCallIds := [],
    tool_call_id := none, name := none }

/-- The assistant history entry recording a provider response together with
its tool-call descriptors. -/
def assistantOfResponse (r : ProviderResponse) : Message :=
  { role := Role.assistant, content := r.content.getD [],
    toolCallIds := r.toolCalls.map (fun tc => tc.id),
    tool_call_id := none, name := none }

/-- The canned message returned when the iteration cap is exhausted
(src/calendar_assistant_service.py line 186). -/
def cannedCompletedMsg : Str :=
  "Task completed successfully! Is there anything else I can help you with?".data

/-- The fallback response when a final provider message has empty content
(src/calendar_assistant_service.py line 183). -/
def taskCompletedFallback : Str := "Task completed successfully!".data

/-- The apology produced by the turn-level exception handler
(src/calendar_assistant_service.py line 192). -/
def apologyText (e : Str) : Str :=
  "I apologize, but I encountered an error while processing your request: ".data ++ e

/-- The message list sent to the provider on every round-trip: the system
prompt followed by the last ten history messages
(src/calendar_assistant_service.py lines 95-96 and 143-144,
src/calendarassistantpro.py lines 199-203 and 245-250). -/
def providerInput (env : AgentEnv) (history : List Message) : List Message :=
  systemMessage env :: lastN 10 history

/-- Result of one processed turn; `roundTrips` counts the completion-provider
calls the turn issued. -/
structure TurnResult where
  response : Str
  history : List Message
  roundTrips : Nat

/-- The `while iteration < self._assistant.max_iterations` follow-up loop of
`CalendarAssistantService.process_message`
(src/calendar_assistant_service.py lines 139-186); the fuel argument is the
number of remaining iterations. A malformed tool-call payload raises out of
`_execute_tool_calls` into the turn-level handler, which appends and returns
the apology. -/
def follow_up_loop (env : AgentEnv) (specs : List ToolSpec) :
    Nat → List Message → Nat → TurnResult
  | 0, hist, calls => ⟨cannedCompletedMsg, hist, calls⟩
  | fuel + 1, hist, calls =>
    let resp := env.provider (providerInput env hist) specs
    if resp.toolCalls.isEmpty then
      let contentStr := resp.content.getD []
      ⟨(if contentStr = [] then taskCompletedFallback else contentStr),
       hist ++ [assistantText contentStr], calls + 1⟩
    else
      match execute_tool_calls env.orch resp.toolCalls with
      | Except.error e =>
        let err := apologyText e
        ⟨err, hist ++ [assistantText err], calls + 1⟩
      | Except.ok toolMsgs =>
        follow_up_loop env specs fuel
          (hist ++ [assistantOfResponse resp] ++ toolMsgs) (calls + 1)

/-- `CalendarAssistantService.process_message`
(src/calendar_assistant_service.py lines 60-200); the interactive
`CalendarAssistantPro.run_chat` turn body
(src/calendarassistantpro.py lines 190-295) has the same structure. A
failing catalog query or a malformed tool payload reaches the turn-level
exception handler, which appends and returns the apology. -/
def process_message (env : AgentEnv) (conversation_history : List Message)
    (message : Str) : TurnResult :=
  let hist1 := conversation_history ++ [userMessage message]
  match get_all_tool_specs env.orch true with
  | Except.error e =>
    let err := apologyText e
    ⟨err, hist1 ++ [assistantText err], 0⟩
  | Except.ok specs =>
    let resp := env.provider (providerInput env hist1) specs
    let hist2 := hist1 ++ [assistantOfResponse resp]
    if resp.toolCalls.isEmpty then
      ⟨resp.content.getD [], hist2, 1⟩
    else
      match execute_tool_calls env.orch resp.toolCalls with
      | Except.error e =>
        let err := apologyText e
        ⟨err, hist2 ++ [assistantText err], 1⟩
      | Except.ok toolMsgs =>
        follow_up_loop env specs env.maxIterations (hist2 ++ toolMsgs) 1

/-- A trimmed slice keeps tool-call/tool-result pairs intact when every
assistant message carrying a tool-call id and every tool-result message
answering that id land on the same side of the trim boundary. -/
def keepsPairsIntact (full trimmed : List Message) : Prop :=
  ∀ m ∈ full, ∀ cid ∈ m.toolCallIds, ∀ m2 ∈ full,
    m2.tool_call_id = some cid → (m ∈ trimmed ↔ m2 ∈ trimmed)

/-- The `UserSession` dataclass (src/discord_session_manager.py lines
15-30). Timestamps are natural-number seconds; `datetime.now()` becomes an
explicit `now` argument of each operation. -/
structure UserSession where
  user_id : Str
  channel_id : Str
  user_email : Str
  conversation_history : List Message
  last_activity : Nat
  thread_id : Option Str
  is_dm : Bool
  rate_limit_count : Nat
  rate_limit_reset : Nat
  conversation_active : Bool
  conversation_started_at : Option Nat
  deriving DecidableEq

/-- The `UserSession(...)` constructor call with its dataclass defaults
(src/discord_session_manager.py lines 151-157): empty history, both
timestamps set to now, no thread, zero rate count, inactive conversation. -/
def mkUserSession (now : Nat) (user_id channel_id user_email : Str)
    (is_dm : Bool) : UserSession :=
  { user_id := user_id, channel_id := channel_id, user_email := user_email,
    conversation_history := [], last_activity := now, thread_id := none,
    is_dm := is_dm, rate_limit_count := 0, rate_limit_reset := now,
    conversation_active := false, conversation_started_at := none }

/-- `UserSession.update_activity` (lines 32-34). -/
def update_activity (s : UserSession) (now : Nat) : UserSession :=
  { s with last_activity := now }

/-- `UserSession.check_rate_limit` (lines 40-54): reset the fixed window
when now has passed the stored boundary (strictly), then admit and count, or
reject. Returns the admission flag together with the mutated session. -/
def check_rate_limit (s : UserSession) (now max_requests window_seconds : Nat) :
    Bool × UserSession :=
  let s1 :=
    if s.rate_limit_reset < now then
      { s with rate_limit_count := 0, rate_limit_reset := now + window_seconds }
    else s
  if max_requests ≤ s1.rate_limit_count then (false, s1)
  else (true, { s1 with rate_limit_count := s1.rate_limit_count + 1 })

/-- The `seconds` attribute of a Python `timedelta`: after normalization the
seconds component is the total number of seconds modulo 86400 with floor
division, which is the euclidean `%` on `Int` for this positive modulus. -/
def pySecondsComponent (delta : Int) : Int := delta % 86400

/-- `UserSession.is_conversation_expired` (lines 67-72). Note that the
source compares `(datetime.now() - self.last_activity).seconds` — the
seconds component of the timedelta, not its total seconds. -/
def is_conversation_expired (s : UserSession) (now timeout_seconds : Nat) : Bool :=
  if s.conversation_active = false ∨ s.conversation_started_at = none then false
  else
    decide (pySecondsComponent ((now : Int) - (s.last_activity : Int)) >
      (timeout_seconds : Int))

/-- `UserSession.start_conversation` (lines 56-60). -/
def start_conversation (s : UserSession) (now : Nat) : UserSession :=
  { s with conversation_active := true, conversation_started_at := some now,
           last_activity := now }

/-- `UserSession.end_conversation` (lines 62-65). -/
def end_conversation (s : UserSession) : UserSession :=
  { s with conversation_active := false, conversation_started_at := none }

/-- The mutable state of `DiscordSessionManager` (lines 90-110) with its
configuration; `_sessions` is an insertion-ordered dict modelled as an
association list. -/
structure DiscordSessionManager where
  session_timeout : Nat
  max_sessions : Nat
  cleanup_interval : Nat
  rate_limit_requests : Nat
  rate_limit_window : Nat
  sessions : List (Str × UserSession)
  active_threads : List Str

/-- Python dict assignment `d[k] = v`: overwrite in place when the key is
present (keeping its position), append otherwise. -/
def dictSet {α : Type} : List (Str × α) → Str → α → List (Str × α)
  | [], k, v => [(k, v)]
  | (k1, v1) :: rest, k, v =>
    if k1 = k then (k, v) :: rest else (k1, v1) :: dictSet rest k v

/-- Python dict deletion `d.pop(k, None)` restricted to the key component:
drop the entry with the given key, keeping the order of the others. -/
def dictRemove {α : Type} (l : List (Str × α)) (k : Str) : List (Str × α) :=
  l.filter (fun p => decide (p.1 ≠ k))

/-- The `min(self._sessions.items(), key=lambda x: x[1].last_activity)` call
of `_remove_oldest_session` (lines 258-261): Python `min` returns the first
minimal item in iteration order. -/
def oldestEntry : List (Str × UserSession) → Option (Str × UserSession)
  | [] => none
  | x :: xs =>
    some (xs.foldl
      (fun best p => if p.2.last_activity < best.2.last_activity then p else best) x)

/-- `DiscordSessionManager.remove_session` (lines 243-251), state part. -/
def remove_session (m : DiscordSessionManager) (user_id : Str) :
    DiscordSessionManager :=
  match dictGet m.sessions user_id with
  | none => m
  | some s =>
    { m with
      sessions := dictRemove m.sessions user_id,
      active_threads :=
        match s.thread_id with
        | some t => m.active_threads.filter (fun x => decide (x ≠ t))
        | none => m.active_threads }

/-- `DiscordSessionManager._remove_oldest_session` (lines 253-264). -/
def remove_oldest_session (m : DiscordSessionManager) : DiscordSessionManager :=
  match oldestEntry m.sessions with
  | none => m
  | some e => remove_session m e.1

/-- `DiscordSessionManager.get_or_create_session` (lines 133-162): refresh
and return an existing session (updating its channel when it differs),
otherwise evict the oldest session when at capacity and insert a fresh one. -/
def get_or_create_session (m : DiscordSessionManager) (now : Nat)
    (user_id channel_id user_email : Str) (is_dm : Bool) :
    UserSession × DiscordSessionManager :=
  match dictGet m.sessions user_id with
  | some s =>
    let s1 := update_activity s now
    let s2 :=
      if s1.channel_id ≠ channel_id then
        { s1 with channel_id := channel_id, is_dm := is_dm }
      else s1
    (s2, { m with sessions := dictSet m.sessions user_id s2 })
  | none =>
    let m1 :=
      if m.max_sessions ≤ m.sessions.length then remove_oldest_session m else m
    let s := mkUserSession now user_id channel_id user_email is_dm
    (s, { m1 with sessions := m1.sessions ++ [(user_id, s)] })

/-- `DiscordSessionManager.get_session` (lines 164-169): a bare lookup also
refreshes the activity timestamp of a present session. -/
def get_session (m : DiscordSessionManager) (now : Nat) (user_id : Str) :
    Option UserSession × DiscordSessionManager :=
  match dictGet m.sessions user_id with
  | none => (none, m)
  | some s =>
    let s1 := update_activity s now
    (some s1, { m with sessions := dictSet m.sessions user_id s1 })

/-! Helper functions used by the specification statements. -/

/-- Whether an `Except` value is a success. -/
def isOkE {ε α : Type} : Except ε α → Bool
  | Except.ok _ => true
  | Except.error _ => false

/-- Whether `json.loads` succeeds on a payload. -/
def parses : ArgPayload → Bool
  | ArgPayload.malformed _ => false
  | _ => true

/-- The parsed value of a payload on which `json.loads` succeeds. -/
def loadsValue : ArgPayload → Args
  | ArgPayload.absent => []
  | ArgPayload.wellFormed a => a
  | ArgPayload.malformed _ => []

/-- Folding `check_rate_limit` over a list of call times, threading the
mutated session. -/
def rateCalls (max_requests window_seconds : Nat) :
    UserSession → List Nat → List Bool × UserSession
  | s, [] => ([], s)
  | s, t :: ts =>
    let r := check_rate_limit s t max_requests window_seconds
    let rest := rateCalls max_requests window_seconds r.2 ts
    (r.1 :: rest.1, rest.2)

/-! Shared lemmas about tool-call batch execution. -/

theorem execute_tool_calls_ok (o : Orch) :
    ∀ tcs : List ToolCall, (∀ tc ∈ tcs, parses tc.arguments = true) →
      execute_tool_calls o tcs =
        Except.ok (tcs.map (fun tc =>
          call_tool_safely o tc.name (loadsValue tc.arguments) tc.id))
  | [], _ => rfl
  | tc :: rest, h => by
    have htc : parses tc.arguments = true := h tc (List.mem_cons_self tc rest)
    have hrest := execute_tool_calls_ok o rest
      (fun x hx => h x (List.mem_cons_of_mem tc hx))
    cases harg : tc.arguments with
    | absent => simp [execute_tool_calls, loads, hrest, loadsValue, harg]
    | wellFormed a => simp [execute_tool_calls, loads, hrest, loadsValue, harg]
    | malformed msg => simp [harg, parses] at htc

theorem execute_tool_calls_isOk (o : Orch) :
    ∀ tcs : List ToolCall,
      isOkE (execute_tool_calls o tcs) = tcs.all (fun tc => parses tc.arguments)
  | [] => rfl
  | tc :: rest => by
    have hrest := execute_tool_calls_isOk o rest
    cases harg : tc.arguments with
    | absent =>
      cases hr : execute_tool_calls o rest <;>
        simp_all [execute_tool_calls, loads, parses, isOkE]
    | wellFormed a =>
      cases hr : execute_tool_calls o rest <;>
        simp_all [execute_tool_calls, loads, parses, isOkE]
    | malformed msg =>
      simp [execute_tool_calls, loads, harg, parses, isOkE]

/-! Concrete fixtures used by counterexamples and witnesses. -/

/-- An orchestrator with no connected backend. -/
def emptyOrch : Orch := { calendar := none, notion := none, gmail := none }

/-- A tool call whose argument payload is text that is not valid JSON. -/
def malformedCall : ToolCall :=
  { id := 1, name := "calendar__list-events".data,
    arguments := ArgPayload.malformed "Expecting value".data }

/-- A tool call with an absent argument payload. -/
def emptyArgsCall : ToolCall :=
  { id := 2, name := "calendar__list-events".data,
    arguments := ArgPayload.absent }

/-- C6 counterexample: a tool-call batch containing a payload that is not
valid JSON does not dispatch with empty arguments — `_execute_tool_calls`
raises the `json.loads` failure (src/calendarassistantpro.py line 146 has no
try/except), so the whole batch fails. -/
theorem malformed_args_fail_batch_cex :
    execute_tool_calls emptyOrch [malformedCall] =
      Except.error "Expecting value".data := rfl

/-- C6 amended: only an absent or empty argument payload is treated as the
empty JSON object; batch execution succeeds exactly when every payload
parses, in which case each call is dispatched safely with its parsed
arguments, and a malformed payload fails the whole batch. -/
theorem execute_tool_calls_parse_spec (o : Orch) (tcs : List ToolCall) :
    (isOkE (execute_tool_calls o tcs) = tcs.all (fun tc => parses tc.arguments)) ∧
    ((∀ tc ∈ tcs, parses tc.arguments = true) →
      execute_tool_calls o tcs =
        Except.ok (tcs.map (fun tc =>
          call_tool_safely o tc.name (loadsValue tc.arguments) tc.id))) ∧
    loads ArgPayload.absent = Except.ok [] :=
  ⟨execute_tool_calls_isOk o tcs, execute_tool_calls_ok o tcs, rfl⟩

/-- Witness for the C6 amended theorem at a concrete batch. -/
theorem execute_tool_calls_parse_spec_witness :
    execute_tool_calls emptyOrch [emptyArgsCall] =
      Except.ok [call_tool_safely emptyOrch emptyArgsCall.name [] emptyArgsCall.id] := by
  have h := execute_tool_calls_parse_spec emptyOrch [emptyArgsCall]
  exact h.2.1 (by decide)

/-- C4: `check_rate_limit` resets the counter and the window boundary
whenever now has passed the stored boundary, then admits exactly when the
(possibly reset) counter is below the maximum, incrementing on admission and
leaving the state otherwise untouched; concretely, with five requests per
sixty-second window the sixth call inside the window is rejected and the
first call after the window elapses is admitted with the counter reset
to one. -/
theorem check_rate_limit_spec (s : UserSession) (now max_requests window_seconds : Nat) :
    (¬ s.rate_limit_reset < now →
      (((check_rate_limit s now max_requests window_seconds).1 = true ↔
          s.rate_limit_count < max_requests) ∧
       ((check_rate_limit s now max_requests window_seconds).1 = true →
          (check_rate_limit s now max_requests window_seconds).2 =
            { s with rate_limit_count := s.rate_limit_count + 1 }) ∧
       ((check_rate_limit s now max_requests window_seconds).1 = false →
          (check_rate_limit s now max_requests window_seconds).2 = s))) ∧
    (s.rate_limit_reset < now →
      (((check_rate_limit s now max_requests window_seconds).1 = true ↔
          0 < max_requests) ∧
       ((check_rate_limit s now max_requests window_seconds).1 = true →
          (check_rate_limit s now max_requests window_seconds).2 =
            { s with rate_limit_count := 1,
                     rate_limit_reset := now + window_seconds }) ∧
       ((check_rate_limit s now max_requests window_seconds).1 = false →
          (check_rate_limit s now max_requests window_seconds).2 =
            { s with rate_limit_count := 0,
                     rate_limit_reset := now + window_seconds }))) ∧
    (rateCalls 5 60 (mkUserSession 0 [] [] [] false) [1, 1, 1, 1, 1, 1, 62]).1 =
      [true, true, true, true, true, false, true] ∧
    (rateCalls 5 60 (mkUserSession 0 [] [] [] false) [1, 1, 1, 1, 1, 1, 62]).2.rate_limit_count = 1 := by
  refine ⟨?_, ?_, by decide, by decide⟩
  · intro h
    by_cases h2 : max_requests ≤ s.rate_limit_count
    · constructor
      · simp [check_rate_limit, if_neg h, if_pos h2]
        omega
      · constructor
        · intro hfalse
          simp [check_rate_limit, if_neg h, if_pos h2] at hfalse
        · intro _
          simp [check_rate_limit, if_neg h, if_pos h2]
    · refine ⟨?_, ?_, ?_⟩
      · simp [check_rate_limit, if_neg h, if_neg h2]
        omega
      · intro _
        simp [check_rate_limit, if_neg h, if_neg h2]
      · intro hfalse
        simp [check_rate_limit, if_neg h, if_neg h2] at hfalse
  · intro h
    have e : check_rate_limit s now max_requests window_seconds =
        (if max_requests ≤ 0 then
          (false, { s with rate_limit_count := 0,
                           rate_limit_reset := now + window_seconds })
         else
          (true, { s with rate_limit_count := 1,
                          rate_limit_reset := now + window_seconds })) := by
      simp only [check_rate_limit, if_pos h, Nat.zero_add]
    by_cases h2 : max_requests ≤ 0
    · rw [e, if_pos h2]
      refine ⟨by simp; omega, by simp, fun _ => rfl⟩
    · rw [e, if_neg h2]
      refine ⟨by simp; omega, fun _ => rfl, by simp⟩

/-- Witness for the C4 theorem: a fresh session admits its first call at the
creation instant and the counter becomes one. -/
theorem check_rate_limit_spec_witness :
    (check_rate_limit (mkUserSession 0 [] [] [] false) 0 5 60).1 = true ∧
    (check_rate_limit (mkUserSession 0 [] [] [] false) 0 5 60).2 =
      { mkUserSession 0 [] [] [] false with rate_limit_count := 1 } := by
  have h := check_rate_limit_spec (mkUserSession 0 [] [] [] false) 0 5 60
  have h1 := (h.1 (by decide)).1.mpr (by decide)
  exact ⟨h1, (h.1 (by decide)).2.1 h1⟩

/-- A session whose conversation flow is active, whose conversation start is
recorded, and whose last activity is one full day in the past. -/
def staleSession : UserSession :=
  { mkUserSession 0 "u".data "c".data "e".data false with
    conversation_active := true, conversation_started_at := some 0 }

/-- C5: `is_conversation_expired` compares the timedelta `seconds` component
(total elapsed seconds modulo 86400, the days dropped) with the timeout
instead of the total elapsed time, so a session last active exactly one day
ago with a ninety-second flow timeout reports not expired even though its
last activity is far older than the timeout. -/
theorem is_conversation_expired_drops_days :
    is_conversation_expired staleSession 86400 90 = false ∧
    staleSession.conversation_active = true ∧
    staleSession.conversation_started_at = some 0 ∧
    86400 - staleSession.last_activity > 90 := by decide

/-- An assistant message carrying one tool-call descriptor with id 7. -/
def toolCallAssistantMsg : Message :=
  { role := Role.assistant, content := [], toolCallIds := [7],
    tool_call_id := none, name := none }

/-- The tool-result message answering call id 7. -/
def toolResultMsg : Message :=
  { role := Role.tool, content := "15".data, toolCallIds := [],
    tool_call_id := some 7, name := some "calendar__x".data }

/-- An eleven-message history whose first message is the assistant tool-call
message and whose second message is its tool result: the ten-message trim
boundary falls between them. -/
def splitHistory : List Message :=
  toolCallAssistantMsg :: toolResultMsg ::
    ["a", "b", "c", "d", "e", "f", "g", "h", "i"].map (fun x => userMessage x.data)

instance (full trimmed : List Message) : Decidable (keepsPairsIntact full trimmed) := by
  unfold keepsPairsIntact
  infer_instance

/-- C7 counterexample: the fixed last-ten-messages slice used on every
round-trip separates an assistant message carrying tool-call descriptors
from its tool-result message across the trim boundary. -/
theorem trim_splits_tool_pair_cex :
    toolCallAssistantMsg ∈ splitHistory ∧
    toolCallAssistantMsg ∉ lastN 10 splitHistory ∧
    toolResultMsg ∈ lastN 10 splitHistory ∧
    7 ∈ toolCallAssistantMsg.toolCallIds ∧
    toolResultMsg.tool_call_id = some 7 ∧
    ¬ keepsPairsIntact splitHistory (lastN 10 splitHistory) := by decide

/-- C7 amended: the history sent to the provider on each round-trip is the
fixed slice of the last ten session messages — a suffix of the history of
length min(length, 10) — and this fixed message-count slice does not keep
tool-call/tool-result pairs intact across the trim boundary. -/
theorem trimmed_history_last_ten (h : List Message) :
    lastN 10 h <:+ h ∧
    (lastN 10 h).length = min h.length 10 ∧
    ¬ keepsPairsIntact splitHistory (lastN 10 splitHistory) := by
  refine ⟨List.drop_suffix _ _, ?_, by decide⟩
  simp only [lastN, List.length_drop]
  omega

/-- A calendar tool used in fixtures. -/
def calTool : Tool :=
  { name := "list-events".data, description := "List calendar events".data,
    title := [] }

/-- A Notion tool used in fixtures. -/
def notionTool : Tool :=
  { name := "search".data, description := "Search the workspace".data,
    title := [] }

/-- A connected backend whose tool-listing query fails. -/
def boomBackend : Backend :=
  { listResult := Except.error "boom".data,
    call := fun _ _ => Except.error "down".data }

def okCalendarBackend : Backend :=
  { listResult := Except.ok [calTool], call := fun _ _ => Except.ok "result".data }

def okNotionBackend : Backend :=
  { listResult := Except.ok [notionTool], call := fun _ _ => Except.ok "result".data }

/-- Calendar connected but failing its listing query, Notion connected and
healthy. -/
def failingOrch : Orch :=
  { calendar := some boomBackend, notion := some okNotionBackend, gmail := none }

/-- Calendar and Notion both connected and healthy. -/
def healthyOrch : Orch :=
  { calendar := some okCalendarBackend, notion := some okNotionBackend, gmail := none }

@[simp] theorem isOkE_ok {ε α : Type} (a : α) :
    isOkE (Except.ok a : Except ε α) = true := rfl

@[simp] theorem isOkE_error {ε α : Type} (e : ε) :
    isOkE (Except.error e : Except ε α) = false := rfl

theorem collectSpecs_isOk (namespaced : Bool) :
    ∀ l : List (Str × Backend),
      isOkE (collectSpecs namespaced l) = l.all (fun p => isOkE p.2.listResult)
  | [] => rfl
  | (s, b) :: rest => by
    have hr := collectSpecs_isOk namespaced rest
    cases hb : b.listResult with
    | error e =>
      simp only [collectSpecs, hb, List.all_cons, isOkE_error, Bool.false_and]
    | ok tools =>
      cases hrest : collectSpecs namespaced rest with
      | error e2 =>
        simp only [collectSpecs, hb, hrest, List.all_cons, isOkE_ok,
          isOkE_error, Bool.true_and]
        rw [← hr, hrest]
        simp only [isOkE_error]
      | ok tailSpecs =>
        simp only [collectSpecs, hb, hrest, List.all_cons, isOkE_ok,
          Bool.true_and]
        rw [← hr, hrest]
        simp only [isOkE_ok]

/-- C1 counterexample: with the calendar backend connected but failing its
tool-listing query and the Notion backend connected and healthy, building
the catalog fails as a whole instead of returning the Notion tools. -/
theorem catalog_query_failure_cex :
    get_all_tool_specs failingOrch true = Except.error "boom".data ∧
    failingOrch.notion = some okNotionBackend ∧
    okNotionBackend.listResult = Except.ok [notionTool] :=
  ⟨rfl, rfl, rfl⟩

/-- C1 amended: `get_all_tool_specs` succeeds exactly when every connected
fastmcp backend's tool-listing query succeeds; a calendar query failure
propagates as the result of the whole call, and on full success the catalog
is the concatenation of every connected backend's namespaced tools followed
by the static Gmail tools when the Gmail client is connected. -/
theorem catalog_failure_propagation (o : Orch) (namespaced : Bool) :
    (isOkE (get_all_tool_specs o namespaced) =
      (clientList o).all (fun p => isOkE p.2.listResult)) ∧
    (∀ cb e, o.calendar = some cb → cb.listResult = Except.error e →
      get_all_tool_specs o namespaced = Except.error e) ∧
    (∀ cb nb calTools notionTools,
      o.calendar = some cb → cb.listResult = Except.ok calTools →
      o.notion = some nb → nb.listResult = Except.ok notionTools →
      get_all_tool_specs o namespaced =
        Except.ok (calTools.map (specOf calendarId namespaced) ++
          (notionTools.map (specOf notionId namespaced) ++
            (if o.gmail.isSome then gmailSpecs namespaced else [])))) := by
  refine ⟨?_, ?_, ?_⟩
  · have hco := collectSpecs_isOk namespaced (clientList o)
    cases hc : collectSpecs namespaced (clientList o) with
    | error e =>
      rw [← hco, hc]
      simp only [get_all_tool_specs, hc, isOkE_error]
    | ok specs =>
      rw [← hco, hc]
      simp only [get_all_tool_specs, hc, isOkE_ok]
  · intro cb e hcb he
    simp [get_all_tool_specs, clientList, hcb, collectSpecs, he]
  · intro cb nb calTools notionTools hcb hc hnb hn
    simp [get_all_tool_specs, clientList, hcb, hnb, collectSpecs, hc, hn,
      List.append_assoc]

/-- Witness for the C1 amended theorem on a fully healthy orchestrator. -/
theorem catalog_failure_propagation_witness :
    get_all_tool_specs healthyOrch true =
      Except.ok ([calTool].map (specOf calendarId true) ++
        ([notionTool].map (specOf notionId true) ++
          (if healthyOrch.gmail.isSome then gmailSpecs true else []))) := by
  have h := catalog_failure_propagation healthyOrch true
  exact h.2.2 okCalendarBackend okNotionBackend [calTool] [notionTool] rfl rfl rfl rfl

theorem splitOnDelim_append (bare : Str) :
    ∀ server : Str, '_' ∉ server →
      splitOnDelim (server ++ '_' :: '_' :: bare) = some (server, bare)
  | [], _ => by simp [splitOnDelim]
  | c :: cs, h => by
    have hc : ¬ (c = '_') := fun he => h (he ▸ List.mem_cons_self c cs)
    have ih := splitOnDelim_append bare cs (fun hm => h (List.mem_cons_of_mem c hm))
    simp only [List.cons_append, splitOnDelim]
    rw [if_neg (fun hand => hc hand.1)]
    show Option.map (fun p => (c :: p.1, p.2))
      (splitOnDelim (cs ++ '_' :: '_' :: bare)) = some (c :: cs, bare)
    rw [ih]
    rfl

theorem collectSpecs_mem (namespaced : Bool) :
    ∀ (l : List (Str × Backend)) (out : List ToolSpec) (sp : ToolSpec),
      collectSpecs namespaced l = Except.ok out → sp ∈ out →
      ∃ p, p ∈ l ∧ ∃ t : Tool, sp = specOf p.1 namespaced t
  | [], out, sp, hok, hmem => by
    simp only [collectSpecs] at hok
    cases hok
    simp at hmem
  | (s, b) :: rest, out, sp, hok, hmem => by
    cases hb : b.listResult with
    | error e => simp [collectSpecs, hb] at hok
    | ok tools =>
      cases hrest : collectSpecs namespaced rest with
      | error e => simp [collectSpecs, hb, hrest] at hok
      | ok tailSpecs =>
        simp only [collectSpecs, hb, hrest] at hok
        cases hok
        rcases List.mem_append.mp hmem with hm | hm
        · rcases List.mem_map.mp hm with ⟨t, _, hsp⟩
          exact ⟨(s, b), List.mem_cons_self _ _, t, hsp.symm⟩
        · obtain ⟨p, hp, t, hsp⟩ :=
            collectSpecs_mem namespaced rest tailSpecs sp hrest hm
          exact ⟨p, List.mem_cons_of_mem _ hp, t, hsp⟩

theorem clientList_keys (o : Orch) (p : Str × Backend) (hp : p ∈ clientList o) :
    p.1 = calendarId ∨ p.1 = notionId := by
  unfold clientList at hp
  rcases List.mem_append.mp hp with hm | hm
  · cases hc : o.calendar with
    | none => rw [hc] at hm; simp at hm
    | some b =>
      rw [hc] at hm
      rw [List.mem_singleton.mp hm]
      exact Or.inl rfl
  · cases hn : o.notion with
    | none => rw [hn] at hm; simp at hm
    | some b =>
      rw [hn] at hm
      rw [List.mem_singleton.mp hm]
      exact Or.inr rfl

theorem gmailSpecs_shape :
    ∀ sp ∈ gmailSpecs true,
      sp.server = gmailId ∧ sp.name = gmailId ++ '_' :: '_' :: sp.bare_name := by
  decide

/-- Every entry of the namespaced catalog has a name of the form
server, delimiter, bare name, with no underscore inside the server id. -/
theorem catalog_name_shape (o : Orch) (specs : List ToolSpec) (sp : ToolSpec)
    (hok : get_all_tool_specs o true = Except.ok specs) (hmem : sp ∈ specs) :
    sp.name = sp.server ++ '_' :: '_' :: sp.bare_name ∧ '_' ∉ sp.server := by
  cases hc : collectSpecs true (clientList o) with
  | error e => simp [get_all_tool_specs, hc] at hok
  | ok base =>
    simp only [get_all_tool_specs, hc] at hok
    cases hok
    rcases List.mem_append.mp hmem with hm | hm
    · obtain ⟨p, hp, t, hsp⟩ := collectSpecs_mem true (clientList o) base sp hc hm
      rcases clientList_keys o p hp with hk | hk
      · rw [hsp, hk]
        exact ⟨rfl, by show '_' ∉ calendarId; decide⟩
      · rw [hsp, hk]
        exact ⟨rfl, by show '_' ∉ notionId; decide⟩
    · by_cases hg : o.gmail.isSome
      · rw [if_pos hg] at hm
        obtain ⟨h1, h2⟩ := gmailSpecs_shape sp hm
        refine ⟨by rw [h2, h1], by rw [h1]; decide⟩
      · rw [if_neg hg] at hm
        simp at hm

/-- C8: for every entry of the namespaced catalog, splitting its namespaced
name at the first delimiter occurrence recovers the producing backend id and
the bare tool name, `call_tool_by_fullname` on that name dispatches to
exactly the backend that produced the entry, and a successful result pair
carries that backend id. -/
theorem namespaced_roundtrip_dispatch (o : Orch) (specs : List ToolSpec)
    (sp : ToolSpec) (args : Args)
    (hok : get_all_tool_specs o true = Except.ok specs) (hmem : sp ∈ specs) :
    splitOnDelim sp.name = some (sp.server, sp.bare_name) ∧
    call_tool_by_fullname o sp.name args =
      (call_tool o sp.server sp.bare_name args).map (fun r => (sp.server, r)) ∧
    (∀ pr, call_tool_by_fullname o sp.name args = Except.ok pr →
      pr.1 = sp.server) := by
  obtain ⟨hshape, hus⟩ := catalog_name_shape o specs sp hok hmem
  have hsplit : splitOnDelim sp.name = some (sp.server, sp.bare_name) := by
    rw [hshape]
    exact splitOnDelim_append sp.bare_name sp.server hus
  refine ⟨hsplit, by simp only [call_tool_by_fullname, hsplit], ?_⟩
  intro pr hpr
  simp only [call_tool_by_fullname, hsplit] at hpr
  cases hct : call_tool o sp.server sp.bare_name args with
  | error e => rw [hct] at hpr; simp [Except.map] at hpr
  | ok r =>
    rw [hct] at hpr
    simp only [Except.map] at hpr
    cases hpr
    rfl

/-- The catalog produced by the healthy two-backend orchestrator. -/
def healthySpecs : List ToolSpec :=
  [specOf calendarId true calTool, specOf notionId true notionTool]

/-- Witness for the C8 theorem on the calendar entry of a concrete
catalog. -/
theorem namespaced_roundtrip_dispatch_witness :
    splitOnDelim (specOf calendarId true calTool).name =
      some ((specOf calendarId true calTool).server,
        (specOf calendarId true calTool).bare_name) ∧
    call_tool_by_fullname healthyOrch (specOf calendarId true calTool).name [] =
      (call_tool healthyOrch (specOf calendarId true calTool).server
        (specOf calendarId true calTool).bare_name []).map
        (fun r => ((specOf calendarId true calTool).server, r)) := by
  have h := namespaced_roundtrip_dispatch healthyOrch healthySpecs
    (specOf calendarId true calTool) [] rfl (by decide)
  exact ⟨h.1, h.2.1⟩

theorem dictGet_eq_none {α : Type} (k : Str) :
    ∀ l : List (Str × α), k ∉ l.map (fun p => p.1) → dictGet l k = none
  | [], _ => rfl
  | (k1, v1) :: rest, h => by
    have h1 : ¬ (k1 = k) := by
      intro he
      exact h (List.mem_cons.mpr (Or.inl he.symm))
    have h2 : k ∉ rest.map (fun p => p.1) :=
      fun hm => h (List.mem_cons_of_mem _ hm)
    have ih := dictGet_eq_none k rest h2
    simp only [dictGet, List.find?] at ih ⊢
    simp only [decide_eq_false h1]
    exact ih

/-- C9: a namespaced call with a name lacking the delimiter is rejected with
the invalid-tool-name error, and a name whose server part matches no
connected backend is rejected with the unknown-server error; both rejections
are fixed error values, so no backend call is consulted. -/
theorem invalid_or_unknown_rejected (o : Orch) (fullname : Str) (args : Args) :
    (splitOnDelim fullname = none →
      call_tool_by_fullname o fullname args =
        Except.error OrchError.invalidToolName) ∧
    (∀ server bare, splitOnDelim fullname = some (server, bare) →
      server ∉ (clientList o).map (fun p => p.1) →
      (o.gmail.isSome → server ≠ gmailId) →
      call_tool_by_fullname o fullname args =
        Except.error (OrchError.unknownServer server)) := by
  constructor
  · intro hs
    simp only [call_tool_by_fullname, hs]
  · intro server bare hs hmem hg
    have hget : dictGet (clientList o) server = none :=
      dictGet_eq_none server (clientList o) hmem
    simp only [call_tool_by_fullname, hs]
    cases hgm : o.gmail with
    | none =>
      simp only [call_tool, hgm, fastmcpDispatch, hget]
      rfl
    | some g =>
      have hne : server ≠ gmailId := hg (by rw [hgm]; rfl)
      simp only [call_tool, hgm]
      rw [if_neg hne]
      simp only [fastmcpDispatch, hget]
      rfl

/-- Witness for the C9 theorem: a delimiter-free name and an unknown server
name, both against the healthy orchestrator. -/
theorem invalid_or_unknown_rejected_witness :
    call_tool_by_fullname healthyOrch "plain".data [] =
      Except.error OrchError.invalidToolName ∧
    call_tool_by_fullname healthyOrch "zzz__x".data [] =
      Except.error (OrchError.unknownServer "zzz".data) := by
  have h1 := invalid_or_unknown_rejected healthyOrch "plain".data []
  have h2 := invalid_or_unknown_rejected healthyOrch "zzz__x".data []
  refine ⟨h1.1 (by decide), h2.2 "zzz".data "x".data (by decide) (by decide) ?_⟩
  intro hg
  simp [healthyOrch] at hg

theorem follow_up_loop_exhausts (env : AgentEnv) (specs : List ToolSpec)
    (hcalls : ∀ ms sp, (env.provider ms sp).toolCalls ≠ [])
    (hparse : ∀ ms sp, ∀ tc ∈ (env.provider ms sp).toolCalls,
      parses tc.arguments = true) :
    ∀ (fuel : Nat) (hist : List Message) (calls : Nat),
      (follow_up_loop env specs fuel hist calls).roundTrips = calls + fuel ∧
      (follow_up_loop env specs fuel hist calls).response = cannedCompletedMsg
  | 0, hist, calls => ⟨rfl, rfl⟩
  | fuel + 1, hist, calls => by
    have hne := hcalls (providerInput env hist) specs
    have hex := execute_tool_calls_ok env.orch
      (env.provider (providerInput env hist) specs).toolCalls
      (hparse (providerInput env hist) specs)
    have hempty :
        (env.provider (providerInput env hist) specs).toolCalls.isEmpty = false := by
      cases hcl : (env.provider (providerInput env hist) specs).toolCalls with
      | nil => exact absurd hcl hne
      | cons a l => rfl
    have step : follow_up_loop env specs (fuel + 1) hist calls =
        follow_up_loop env specs fuel
          (hist ++ [assistantOfResponse (env.provider (providerInput env hist) specs)] ++
            ((env.provider (providerInput env hist) specs).toolCalls.map (fun tc =>
              call_tool_safely env.orch tc.name (loadsValue tc.arguments) tc.id)))
          (calls + 1) := by
      simp only [follow_up_loop, hempty, Bool.false_eq_true, if_false, hex]
    have ih := follow_up_loop_exhausts env specs hcalls hparse fuel
      (hist ++ [assistantOfResponse (env.provider (providerInput env hist) specs)] ++
        ((env.provider (providerInput env hist) specs).toolCalls.map (fun tc =>
          call_tool_safely env.orch tc.name (loadsValue tc.arguments) tc.id)))
      (calls + 1)
    refine ⟨?_, ?_⟩
    · rw [step, ih.1]
      omega
    · rw [step, ih.2]

/-- C2 amended: when the tool catalog is available and every provider
response proposes at least one tool call whose argument payloads all parse,
a turn performs exactly one initial provider round-trip plus max_iterations
follow-up round-trips — max_iterations + 1 in total, never more — and then
terminates by returning the canned completed message. -/
theorem iteration_cap_round_trips (env : AgentEnv) (history : List Message)
    (message : Str) (specs : List ToolSpec)
    (hcat : get_all_tool_specs env.orch true = Except.ok specs)
    (hcalls : ∀ ms sp, (env.provider ms sp).toolCalls ≠ [])
    (hparse : ∀ ms sp, ∀ tc ∈ (env.provider ms sp).toolCalls,
      parses tc.arguments = true) :
    (process_message env history message).roundTrips = env.maxIterations + 1 ∧
    (process_message env history message).response = cannedCompletedMsg := by
  have hne := hcalls (providerInput env (history ++ [userMessage message])) specs
  have hex := execute_tool_calls_ok env.orch
    (env.provider (providerInput env (history ++ [userMessage message])) specs).toolCalls
    (hparse (providerInput env (history ++ [userMessage message])) specs)
  have hempty :
      (env.provider (providerInput env (history ++ [userMessage message]))
        specs).toolCalls.isEmpty = false := by
    cases hcl : (env.provider (providerInput env (history ++ [userMessage message]))
        specs).toolCalls with
    | nil => exact absurd hcl hne
    | cons a l => rfl
  have step : process_message env history message =
      follow_up_loop env specs env.maxIterations
        ((history ++ [userMessage message] ++
          [assistantOfResponse (env.provider
            (providerInput env (history ++ [userMessage message])) specs)]) ++
          ((env.provider (providerInput env (history ++ [userMessage message]))
            specs).toolCalls.map (fun tc =>
              call_tool_safely env.orch tc.name (loadsValue tc.arguments) tc.id)))
        1 := by
    simp only [process_message, hcat, hempty, Bool.false_eq_true, if_false, hex]
  have hloop := follow_up_loop_exhausts env specs hcalls hparse env.maxIterations
    ((history ++ [userMessage message] ++
      [assistantOfResponse (env.provider
        (providerInput env (history ++ [userMessage message])) specs)]) ++
      ((env.provider (providerInput env (history ++ [userMessage message]))
        specs).toolCalls.map (fun tc =>
          call_tool_safely env.orch tc.name (loadsValue tc.arguments) tc.id)))
    1
  refine ⟨?_, ?_⟩
  · rw [step, hloop.1]
    omega
  · rw [step, hloop.2]

/-- An agent environment with the default iteration cap of ten, an empty
orchestrator, and a provider that always proposes one tool call with an
absent argument payload. -/
def loopEnv : AgentEnv :=
  { systemPrompt := []
    maxIterations := 10
    provider := fun _ _ =>
      { content := some "still working".data
        toolCalls := [{ id := 0, name := "calendar__x".data,
                        arguments := ArgPayload.absent }] }
    orch := emptyOrch }

/-- C2 counterexample: with the default cap of ten and a provider that
always proposes a tool call, the turn issues eleven provider round-trips —
the initial call plus ten follow-up iterations — not ten. -/
theorem round_trips_exceed_cap_cex :
    (process_message loopEnv [] "hi".data).roundTrips = 11 ∧
    loopEnv.maxIterations = 10 ∧
    (process_message loopEnv [] "hi".data).response = cannedCompletedMsg := by
  decide

/-- Witness for the C2 amended theorem on the concrete always-tool-calling
environment. -/
theorem iteration_cap_round_trips_witness :
    (process_message loopEnv [] "hi".data).roundTrips = loopEnv.maxIterations + 1 ∧
    (process_message loopEnv [] "hi".data).response = cannedCompletedMsg := by
  have h := iteration_cap_round_trips loopEnv [] "hi".data [] rfl
    (fun ms sp => by simp [loopEnv])
    (fun ms sp tc htc => by
      simp only [loopEnv] at htc
      rcases List.mem_singleton.mp htc with rfl
      rfl)
  exact h

/-- The fold `min(items, key=last_activity)` performs, starting from a seed
entry. -/
def oldestFold (x : Str × UserSession) (xs : List (Str × UserSession)) :
    Str × UserSession :=
  xs.foldl
    (fun best p => if p.2.last_activity < best.2.last_activity then p else best) x

theorem oldestFold_spec :
    ∀ (xs : List (Str × UserSession)) (x : Str × UserSession),
      (oldestFold x xs = x ∨ oldestFold x xs ∈ xs) ∧
      (oldestFold x xs).2.last_activity ≤ x.2.last_activity ∧
      ∀ p ∈ xs, (oldestFold x xs).2.last_activity ≤ p.2.last_activity
  | [], x => ⟨Or.inl rfl, Nat.le_refl _, by intro p hp; cases hp⟩
  | y :: ys, x => by
    by_cases hxy : y.2.last_activity < x.2.last_activity
    · have hfold : oldestFold x (y :: ys) = oldestFold y ys := by
        simp only [oldestFold, List.foldl_cons, if_pos hxy]
      have ih := oldestFold_spec ys y
      refine ⟨?_, ?_, ?_⟩
      · rw [hfold]
        rcases ih.1 with he | hm
        · exact Or.inr (by rw [he]; exact List.mem_cons_self y ys)
        · exact Or.inr (List.mem_cons_of_mem y hm)
      · rw [hfold]
        exact Nat.le_trans ih.2.1 (Nat.le_of_lt hxy)
      · intro p hp
        rw [hfold]
        rcases List.mem_cons.mp hp with he | hm
        · rw [he]
          exact ih.2.1
        · exact ih.2.2 p hm
    · have hfold : oldestFold x (y :: ys) = oldestFold x ys := by
        simp only [oldestFold, List.foldl_cons, if_neg hxy]
      have ih := oldestFold_spec ys x
      refine ⟨?_, ?_, ?_⟩
      · rw [hfold]
        rcases ih.1 with he | hm
        · exact Or.inl he
        · exact Or.inr (List.mem_cons_of_mem y hm)
      · rw [hfold]
        exact ih.2.1
      · intro p hp
        rw [hfold]
        rcases List.mem_cons.mp hp with he | hm
        · rw [he]
          exact Nat.le_trans ih.2.1 (Nat.le_of_not_lt hxy)
        · exact ih.2.2 p hm

theorem oldestEntry_spec (l : List (Str × UserSession)) (e : Str × UserSession)
    (h : oldestEntry l = some e) :
    e ∈ l ∧ ∀ p ∈ l, e.2.last_activity ≤ p.2.last_activity := by
  cases l with
  | nil => cases h
  | cons x xs =>
    have he : oldestFold x xs = e := Option.some.inj h
    have hf := oldestFold_spec xs x
    rw [he] at hf
    constructor
    · rcases hf.1 with h1 | h1
      · exact h1 ▸ List.mem_cons_self x xs
      · exact List.mem_cons_of_mem x h1
    · intro p hp
      rcases List.mem_cons.mp hp with h1 | h1
      · rw [h1]
        exact hf.2.1
      · exact hf.2.2 p h1

theorem dictGet_of_mem {α : Type} (k : Str) (v : α) :
    ∀ l : List (Str × α), (l.map (fun p => p.1)).Nodup →
      (k, v) ∈ l → dictGet l k = some v
  | [], _, h => by cases h
  | (k1, v1) :: rest, hnd, h => by
    rcases List.mem_cons.mp h with he | hm
    · cases he
      simp [dictGet, List.find?]
    · have hk : ¬ (k1 = k) := by
        intro he2
        have hmem : k ∈ rest.map (fun p => p.1) :=
          List.mem_map.mpr ⟨(k, v), hm, rfl⟩
        exact (List.nodup_cons.mp hnd).1 (he2 ▸ hmem)
      have ih := dictGet_of_mem k v rest (List.nodup_cons.mp hnd).2 hm
      simp only [dictGet, List.find?] at ih ⊢
      simp only [decide_eq_false hk]
      exact ih

theorem mem_keys_of_dictGet {α : Type} (k : Str) :
    ∀ (l : List (Str × α)) (v : α), dictGet l k = some v →
      k ∈ l.map (fun p => p.1)
  | [], v, h => by simp [dictGet] at h
  | (k1, v1) :: rest, v, h => by
    by_cases hk : k1 = k
    · exact List.mem_cons.mpr (Or.inl hk.symm)
    · have h2 : dictGet rest k = some v := by
        simp only [dictGet, List.find?] at h ⊢
        simp only [decide_eq_false hk] at h
        exact h
      exact List.mem_cons_of_mem _ (mem_keys_of_dictGet k rest v h2)

theorem dictRemove_of_not_mem {α : Type} (k : Str) :
    ∀ l : List (Str × α), k ∉ l.map (fun p => p.1) → dictRemove l k = l
  | [], _ => rfl
  | (k1, v1) :: rest, h => by
    have h1 : (k1 : Str) ≠ k := fun he => h (List.mem_cons.mpr (Or.inl he.symm))
    have h2 : k ∉ rest.map (fun p => p.1) :=
      fun hm => h (List.mem_cons_of_mem _ hm)
    have ih := dictRemove_of_not_mem k rest h2
    have hd : (decide (¬ ((k1, v1).1 = k))) = true := by simp [h1]
    simp only [dictRemove] at ih ⊢
    simp only [List.filter, hd]
    rw [ih]

theorem dictRemove_length {α : Type} (k : Str) (v : α) :
    ∀ l : List (Str × α), (l.map (fun p => p.1)).Nodup → (k, v) ∈ l →
      (dictRemove l k).length + 1 = l.length
  | [], _, h => by cases h
  | (k1, v1) :: rest, hnd, h => by
    rcases List.mem_cons.mp h with he | hm
    · cases he
      have hk : k ∉ rest.map (fun p => p.1) := (List.nodup_cons.mp hnd).1
      have ih := dictRemove_of_not_mem k rest hk
      have hd : (decide (¬ ((k, v).1 = k))) = false := by simp
      simp only [dictRemove] at ih ⊢
      simp only [List.filter, hd, ih, List.length_cons]
    · have hk1 : (k1 : Str) ≠ k := by
        intro he
        have hmem : k ∈ rest.map (fun p => p.1) :=
          List.mem_map.mpr ⟨(k, v), hm, rfl⟩
        exact (List.nodup_cons.mp hnd).1 (he ▸ hmem)
      have ih := dictRemove_length k v rest (List.nodup_cons.mp hnd).2 hm
      have hd : (decide (¬ ((k1, v1).1 = k))) = true := by simp [hk1]
      simp only [dictRemove] at ih ⊢
      simp only [List.filter, hd, List.length_cons]
      omega

theorem not_mem_keys_dictRemove {α : Type} (k : Str) (l : List (Str × α)) :
    k ∉ (dictRemove l k).map (fun p => p.1) := by
  intro hm
  rcases List.mem_map.mp hm with ⟨p, hp, hfst⟩
  have hdec := List.of_mem_filter hp
  exact (of_decide_eq_true hdec) hfst

theorem dictSet_length_of_mem {α : Type} (k : Str) (v : α) :
    ∀ l : List (Str × α), k ∈ l.map (fun p => p.1) →
      (dictSet l k v).length = l.length
  | [], h => by simp at h
  | (k1, v1) :: rest, h => by
    by_cases hk : k1 = k
    · simp [dictSet, hk]
    · have hm : k ∈ rest.map (fun p => p.1) := by
        rcases List.mem_cons.mp h with he | hm
        · exact absurd he.symm hk
        · exact hm
      simp [dictSet, hk, dictSet_length_of_mem k v rest hm]

theorem oldestEntry_isSome_of_ne_nil (l : List (Str × UserSession)) (h : l ≠ []) :
    ∃ e, oldestEntry l = some e := by
  cases l with
  | nil => exact absurd rfl h
  | cons x xs => exact ⟨oldestFold x xs, rfl⟩

theorem get_or_create_absent (m : DiscordSessionManager) (now : Nat)
    (user_id channel_id user_email : Str) (is_dm : Bool)
    (h : user_id ∉ m.sessions.map (fun p => p.1)) :
    (get_or_create_session m now user_id channel_id user_email is_dm).1 =
      mkUserSession now user_id channel_id user_email is_dm ∧
    (get_or_create_session m now user_id channel_id user_email is_dm).2.sessions =
      (if m.max_sessions ≤ m.sessions.length then
        remove_oldest_session m else m).sessions ++
        [(user_id, mkUserSession now user_id channel_id user_email is_dm)] := by
  have hget := dictGet_eq_none user_id m.sessions h
  constructor <;> simp only [get_or_create_session, hget]

theorem remove_oldest_at_capacity (m : DiscordSessionManager)
    (hnodup : (m.sessions.map (fun p => p.1)).Nodup)
    (e : Str × UserSession) (he : oldestEntry m.sessions = some e) :
    (remove_oldest_session m).sessions = dictRemove m.sessions e.1 := by
  have hm := (oldestEntry_spec m.sessions e he).1
  have hpair : (e.1, e.2) ∈ m.sessions := by
    rw [Prod.mk.eta]
    exact hm
  have hget : dictGet m.sessions e.1 = some e.2 :=
    dictGet_of_mem e.1 e.2 m.sessions hnodup hpair
  simp only [remove_oldest_session, he, remove_session, hget]

/-- C3 amended: provided the capacity is at least one (and the pool keys are
distinct), `get_or_create_session` keeps the pool size within max_sessions;
when a not-yet-present identity arrives at capacity, the entry with the
globally minimal last_activity is evicted before insertion and a subsequent
request from the evicted identity creates a fresh session with empty
history; with capacity zero the bound is violated. -/
theorem session_pool_eviction (m : DiscordSessionManager) (now : Nat)
    (user_id channel_id user_email : Str) (is_dm : Bool)
    (hnodup : (m.sessions.map (fun p => p.1)).Nodup)
    (hcap : m.sessions.length ≤ m.max_sessions)
    (hpos : 1 ≤ m.max_sessions) :
    (get_or_create_session m now user_id channel_id user_email
      is_dm).2.sessions.length ≤ m.max_sessions ∧
    (user_id ∉ m.sessions.map (fun p => p.1) →
      m.sessions.length = m.max_sessions →
      ∃ victim, oldestEntry m.sessions = some victim ∧
        victim ∈ m.sessions ∧
        (∀ p ∈ m.sessions, victim.2.last_activity ≤ p.2.last_activity) ∧
        (get_or_create_session m now user_id channel_id user_email
          is_dm).2.sessions =
          dictRemove m.sessions victim.1 ++
            [(user_id, mkUserSession now user_id channel_id user_email is_dm)] ∧
        victim.1 ∉ ((get_or_create_session m now user_id channel_id user_email
          is_dm).2.sessions.map (fun p => p.1)) ∧
        (∀ now2 ch2 em2 dm2,
          (get_or_create_session
            (get_or_create_session m now user_id channel_id user_email is_dm).2
            now2 victim.1 ch2 em2 dm2).1.conversation_history = [])) ∧
    (user_id ∉ m.sessions.map (fun p => p.1) →
      (get_or_create_session m now user_id channel_id user_email is_dm).1 =
        mkUserSession now user_id channel_id user_email is_dm) := by
  by_cases hin : user_id ∈ m.sessions.map (fun p => p.1)
  · obtain ⟨p, hp, hfst⟩ := List.mem_map.mp hin
    have hpair : (user_id, p.2) ∈ m.sessions := by
      rw [← hfst, Prod.mk.eta]
      exact hp
    have hget : dictGet m.sessions user_id = some p.2 :=
      dictGet_of_mem user_id p.2 m.sessions hnodup hpair
    refine ⟨?_, fun habs => absurd hin habs, fun habs => absurd hin habs⟩
    simp only [get_or_create_session, hget]
    rw [dictSet_length_of_mem user_id _ m.sessions hin]
    exact hcap
  · obtain ⟨hfresh, hsess⟩ :=
      get_or_create_absent m now user_id channel_id user_email is_dm hin
    refine ⟨?_, ?_, fun _ => hfresh⟩
    · by_cases hfull : m.max_sessions ≤ m.sessions.length
      · have hlen : m.sessions.length = m.max_sessions :=
          Nat.le_antisymm hcap hfull
        have hne : m.sessions ≠ [] := by
          intro hnil
          rw [hnil] at hlen
          simp at hlen
          omega
        obtain ⟨e, he⟩ := oldestEntry_isSome_of_ne_nil m.sessions hne
        have hrem := remove_oldest_at_capacity m hnodup e he
        have hpair : (e.1, e.2) ∈ m.sessions := by
          rw [Prod.mk.eta]
          exact (oldestEntry_spec m.sessions e he).1
        have hrlen := dictRemove_length e.1 e.2 m.sessions hnodup hpair
        rw [hsess, if_pos hfull, hrem]
        simp only [List.length_append, List.length_cons, List.length_nil]
        omega
      · rw [hsess, if_neg hfull]
        simp only [List.length_append, List.length_cons, List.length_nil]
        omega
    · intro _ hlen
      have hfull : m.max_sessions ≤ m.sessions.length := by omega
      have hne : m.sessions ≠ [] := by
        intro hnil
        rw [hnil] at hlen
        simp at hlen
        omega
      obtain ⟨e, he⟩ := oldestEntry_isSome_of_ne_nil m.sessions hne
      have hspec := oldestEntry_spec m.sessions e he
      have hrem := remove_oldest_at_capacity m hnodup e he
      have hneq : e.1 ≠ user_id := by
        intro heq
        exact hin (heq ▸ List.mem_map.mpr ⟨e, hspec.1, rfl⟩)
      have hsess2 : (get_or_create_session m now user_id channel_id user_email
          is_dm).2.sessions =
          dictRemove m.sessions e.1 ++
            [(user_id, mkUserSession now user_id channel_id user_email is_dm)] := by
        rw [hsess, if_pos hfull, hrem]
      have hnot : e.1 ∉ ((get_or_create_session m now user_id channel_id
          user_email is_dm).2.sessions.map (fun p => p.1)) := by
        rw [hsess2]
        intro hmem
        rw [List.map_append] at hmem
        rcases List.mem_append.mp hmem with hm1 | hm1
        · exact not_mem_keys_dictRemove e.1 m.sessions hm1
        · simp at hm1
          exact hneq hm1
      refine ⟨e, he, hspec.1, hspec.2, hsess2, hnot, ?_⟩
      intro now2 ch2 em2 dm2
      rw [(get_or_create_absent _ now2 e.1 ch2 em2 dm2 hnot).1]
      rfl

/-- An empty session manager configured with capacity zero. -/
def zeroCapManager : DiscordSessionManager :=
  { session_timeout := 1800, max_sessions := 0, cleanup_interval := 300,
    rate_limit_requests := 5, rate_limit_window := 60,
    sessions := [], active_threads := [] }

/-- C3 counterexample: with capacity zero, inserting into the (vacuously
full) empty pool produces one stored session, so the pool exceeds
max_sessions. -/
theorem session_pool_zero_capacity_cex :
    (get_or_create_session zeroCapManager 0 "u".data "c".data "e".data
      false).2.sessions.length = 1 ∧
    zeroCapManager.max_sessions = 0 := by decide

/-- A session manager at capacity one holding a single session. -/
def fullManager : DiscordSessionManager :=
  { session_timeout := 1800, max_sessions := 1, cleanup_interval := 300,
    rate_limit_requests := 5, rate_limit_window := 60,
    sessions := [("old".data, mkUserSession 0 "old".data "c".data "e".data false)],
    active_threads := [] }

/-- Witness for the C3 amended theorem: a new identity arriving at capacity
keeps the pool within bounds and receives a fresh empty-history session. -/
theorem session_pool_eviction_witness :
    (get_or_create_session fullManager 5 "new".data "c".data "e".data
      false).2.sessions.length ≤ fullManager.max_sessions ∧
    (get_or_create_session fullManager 5 "new".data "c".data "e".data false).1 =
      mkUserSession 5 "new".data "c".data "e".data false := by
  have h := session_pool_eviction fullManager 5 "new".data "c".data "e".data
    false (by decide) (by decide) (by decide)
  exact ⟨h.1, h.2.2 (by decide)⟩

/-- C10: for an identity already present in the store both `get_session` and
`get_or_create_session` refresh only the session's activity timestamp: the
conversation history, rate-limit counter and window, conversation-flow flag
and start, thread affinity and email are unchanged, and
`get_or_create_session` changes the channel binding exactly when the channel
differs; the refreshed entry is written back in place. -/
theorem lookup_refreshes_activity_only (m : DiscordSessionManager) (now : Nat)
    (user_id : Str) (s : UserSession) (channel_id user_email : Str) (is_dm : Bool)
    (h : dictGet m.sessions user_id = some s) :
    ((get_session m now user_id).1 = some { s with last_activity := now }) ∧
    ((get_session m now user_id).2.sessions =
      dictSet m.sessions user_id { s with last_activity := now }) ∧
    ((get_or_create_session m now user_id channel_id user_email
      is_dm).1.last_activity = now) ∧
    ((get_or_create_session m now user_id channel_id user_email
      is_dm).1.conversation_history = s.conversation_history) ∧
    ((get_or_create_session m now user_id channel_id user_email
      is_dm).1.rate_limit_count = s.rate_limit_count) ∧
    ((get_or_create_session m now user_id channel_id user_email
      is_dm).1.rate_limit_reset = s.rate_limit_reset) ∧
    ((get_or_create_session m now user_id channel_id user_email
      is_dm).1.conversation_active = s.conversation_active) ∧
    ((get_or_create_session m now user_id channel_id user_email
      is_dm).1.conversation_started_at = s.conversation_started_at) ∧
    ((get_or_create_session m now user_id channel_id user_email
      is_dm).1.thread_id = s.thread_id) ∧
    ((get_or_create_session m now user_id channel_id user_email
      is_dm).1.user_email = s.user_email) ∧
    (s.channel_id ≠ channel_id →
      (get_or_create_session m now user_id channel_id user_email
        is_dm).1.channel_id = channel_id ∧
      (get_or_create_session m now user_id channel_id user_email
        is_dm).1.is_dm = is_dm) ∧
    (s.channel_id = channel_id →
      (get_or_create_session m now user_id channel_id user_email
        is_dm).1.channel_id = s.channel_id ∧
      (get_or_create_session m now user_id channel_id user_email
        is_dm).1.is_dm = s.is_dm) ∧
    ((get_or_create_session m now user_id channel_id user_email
      is_dm).2.sessions =
      dictSet m.sessions user_id
        (get_or_create_session m now user_id channel_id user_email is_dm).1) := by
  by_cases hch : s.channel_id ≠ channel_id
  · refine ⟨?_, ?_, ?_, ?_, ?_, ?_, ?_, ?_, ?_, ?_, ?_, ?_, ?_⟩ <;>
      simp [get_session, get_or_create_session, update_activity, h, hch]
  · refine ⟨?_, ?_, ?_, ?_, ?_, ?_, ?_, ?_, ?_, ?_, ?_, ?_, ?_⟩ <;>
      simp [get_session, get_or_create_session, update_activity, h, hch]

/-- Witness for the C10 theorem: looking up the stored identity refreshes
only its activity timestamp. -/
theorem lookup_refreshes_activity_only_witness :
    (get_session fullManager 9 "old".data).1 =
      some { mkUserSession 0 "old".data "c".data "e".data false with
              last_activity := 9 } ∧
    (get_or_create_session fullManager 9 "old".data "c".data "e".data
      false).1.conversation_history =
      (mkUserSession 0 "old".data "c".data "e".data false).conversation_history := by
  have h := lookup_refreshes_activity_only fullManager 9 "old".data
    (mkUserSession 0 "old".data "c".data "e".data false) "c".data "e".data
    false (by decide)
  exact ⟨h.1, h.2.2.2.1⟩
